import Mathlib

/-!
# bob: command tokenizer, argument check and output capture loop

A shallow embedding of `src/bob.cc`.

* C strings are lists of characters (the characters before the terminating NUL).
* The capture loop of `runCommand` is a state machine over a small model of the
  kernel objects it talks to: two pipes and the exit status of the child.
-/

namespace Bob

/-! ## Command line arguments (`readCommandLineArgs`, `fatal`, `main`) -/

/-- The record filled by `readCommandLineArgs`. -/
structure CommandLineArgs where
  bob_file : String
  deriving DecidableEq, Repr

/-- What `fatal` does to the process: the text written to `stderr` and the status given to `exit`. -/
structure Fatal where
  stderr_text : String
  exit_status : Int
  deriving DecidableEq, Repr

/-- `fatal(fmt)`: prints `fmt`, a newline, and calls `exit(1)`. -/
def fatal (fmt : String) : Fatal :=
  { stderr_text := fmt ++ "\n", exit_status := 1 }

/-- `#define USAGE`. -/
def USAGE : String := "usage: bob BOBFILE"

/-- `readCommandLineArgs(argc, argv, out_args)`: `Except.error` is the call of `fatal`
(the process ends there), `Except.ok` the value stored in `*out_args`. -/
def readCommandLineArgs (argc : Int) (argv : Nat → String) : Except Fatal CommandLineArgs :=
  if argc < 2 then
    .error (fatal USAGE)
  else if argc > 2 then
    .error (fatal USAGE)
  else
    .ok { bob_file := argv 1 }

/-! ## Tokenizer (`parseCommand`) -/

/-- Membership in `delimiters = " \t\n"`. -/
def isDelimiter (c : Char) : Bool :=
  c == ' ' || c == '\t' || c == '\n'

/-- `strpbrk(iter, delimiters)`: the offset of the first delimiter of `iter`,
`none` for the null pointer (no delimiter before the terminating NUL). -/
def strpbrk : List Char → Option Nat
  | [] => none
  | c :: cs => if isDelimiter c then some 0 else (strpbrk cs).map (· + 1)

/-- The variables captured by the lambda `get_next_token`. -/
structure Lexer where
  iter : List Char
  ended : Bool
  deriving DecidableEq, Repr

/-- The lambda `get_next_token`: the token and the updated captured variables. -/
def get_next_token (lx : Lexer) : List Char × Lexer :=
  match strpbrk lx.iter with
  | none => (lx.iter, { lx with ended := true })
  | some off => (lx.iter.take off, { lx with iter := lx.iter.drop (off + 1) })

/-- `struct Command`; a `none` entry of `arguments` is the null pointer. -/
structure Command where
  program_name : List Char
  arguments : List (Option (List Char))
  argument_count : Nat
  deriving DecidableEq, Repr

/-- The loop `while (!ended)` of `parseCommand`, pushing onto the vector `arguments`.
A token whose first character is NUL is dropped. `none` when the fuel runs out. -/
def tokenLoop : Nat → Lexer → List (List Char) → Option (List (List Char))
  | 0, lx, arguments => if lx.ended then some arguments else none
  | fuel + 1, lx, arguments =>
    if lx.ended then some arguments
    else
      let (token, lx1) := get_next_token lx
      if token.headD '\x00' == '\x00' then tokenLoop fuel lx1 arguments
      else tokenLoop fuel lx1 (arguments ++ [token])

/-- `parseCommand(source)`. Every call of `get_next_token` sets `ended` or moves `iter`
forward, so the fuel `source.length + 1` is enough for every source. -/
def parseCommand (source : List Char) : Option Command :=
  let (program_name, lx) := get_next_token { iter := source, ended := false }
  match tokenLoop (source.length + 1) lx [program_name] with
  | none => none
  | some arguments =>
    let withNull : List (Option (List Char)) := arguments.map some ++ [none]
    some { program_name := program_name
           arguments := withNull
           argument_count := withNull.length }

/-- The entries of `arguments` before the trailing null sentinel. -/
def Command.args (c : Command) : List (Option (List Char)) :=
  c.arguments.dropLast

/-- The tokens as spec section 4.1 words them, for comparison with `parseCommand`: the source
is split at every whitespace character and the empty pieces are discarded, which leaves the
maximal non-whitespace runs from left to right. -/
def maximalRuns (source : List Char) : List (List Char) :=
  (source.splitOnP isDelimiter).filter (fun token => !token.isEmpty)

/-! ## `main` as a list of effects -/

/-- The externally visible actions of `main` that the claims speak about. -/
inductive Effect where
  | writeStderr (text : String)
  | readFile (filename : String)
  | launch (command : Command)
  deriving DecidableEq, Repr

/-- The result of running `main`: its effects in order and the exit status. -/
structure MainRun where
  effects : List Effect
  exit_status : Int
  deriving DecidableEq, Repr

/-- `main(argc, argv)`; `fileContent` is what `readEntireFile` returns for a file name,
`Effect.launch` stands for the call of `runCommand`. -/
def main (argc : Int) (argv : Nat → String) (fileContent : String → List Char) : MainRun :=
  match readCommandLineArgs argc argv with
  | .error f => { effects := [.writeStderr f.stderr_text], exit_status := f.exit_status }
  | .ok args =>
    let source := fileContent args.bob_file
    match parseCommand source with
    | none => { effects := [.readFile args.bob_file], exit_status := 0 }
    | some command =>
      { effects := [.readFile args.bob_file, .launch command], exit_status := 0 }

/-! ## The capture loop of `runCommand` -/

/-- A `char` of a buffer or a pipe. -/
abbrev Byte := Nat

/-- The outcome of `read(fd, buffer.data() + index, 64)`: the bytes the kernel stored at the
destination (the call returns their number, `0` for end of stream), or the return value `-1`
(`EAGAIN` on an empty non-blocking pipe, or any other error). -/
inductive ReadOutcome where
  | bytes (chunk : List Byte)
  | fail
  deriving DecidableEq, Repr

/-- The `ssize_t` returned by `read`. -/
def ReadOutcome.ret : ReadOutcome → Int
  | .bytes chunk => (chunk.length : Int)
  | .fail => -1

/-- The bytes `read` stored at its destination. -/
def ReadOutcome.stored : ReadOutcome → List Byte
  | .bytes chunk => chunk
  | .fail => []

/-- The memory effect of `read` on the vector: `chunk` overwrites the bytes at offset `index`. -/
def storeAt (buffer : List Byte) (index : Nat) (chunk : List Byte) : List Byte :=
  buffer.take index ++ chunk ++ buffer.drop (index + chunk.length)

/-- The lambda `read_into_buffer`, given the outcome of its `read` call: the returned `bool`,
the vector and the index afterwards. `resize` appends value-initialised (zero) characters. -/
def read_into_buffer (r : ReadOutcome) (buffer : List Byte) (index : Nat) :
    Bool × List Byte × Nat :=
  let ret := r.ret
  let data := storeAt buffer index r.stored
  if ret = 0 then (false, data, index)
  else if ret < 0 then (false, data, index)
  else (true, data ++ List.replicate ret.toNat 0, index + ret.toNat)

/-- The local variables of `runCommand` that the capture loop uses. -/
structure Capture where
  stdout_buffer : List Byte
  stdout_index : Nat
  stderr_buffer : List Byte
  stderr_index : Nat
  ended : Bool
  pipe_empty : Bool
  deriving DecidableEq, Repr

/-- The locals as initialised on lines 146 to 173. -/
def Capture.init : Capture :=
  { stdout_buffer := List.replicate 64 0
    stdout_index := 0
    stderr_buffer := List.replicate 64 0
    stderr_index := 0
    ended := false
    pipe_empty := true }

/-- The kernel objects shared by parent and child: the unread bytes of each pipe, oldest
first, and whether the child has terminated. -/
structure Kernel where
  out_pipe : List Byte
  err_pipe : List Byte
  child_exited : Bool
  deriving DecidableEq, Repr

/-- A non-blocking `read` of at most 64 bytes from a pipe whose write end is still open
somewhere (the parent never closes its copies): the outcome and the bytes left in the pipe. -/
def sys_read (pipe : List Byte) : ReadOutcome × List Byte :=
  if pipe = [] then (.fail, []) else (.bytes (pipe.take 64), pipe.drop 64)

/-- The parent's `waitpid(pid, &proc_status, WNOHANG)`: `0` while the child runs, otherwise the
(positive) pid of the child, written `1`. -/
def sys_waitpid (k : Kernel) : Int :=
  if k.child_exited then 1 else 0

/-- A system call performed by the capture loop, with what it returned. -/
inductive Op where
  | readOut (r : ReadOutcome)
  | readErr (r : ReadOutcome)
  | poll (wait_result : Int)
  deriving DecidableEq, Repr

/-- Where a process is in the capture loop: about to execute the statement of line 177, the
`read` of line 178, the `waitpid` of line 182, or past the loop. -/
inductive Pc where
  | readOut
  | readErr
  | poll
  | done
  deriving DecidableEq, Repr

/-- A process executing the capture loop, together with the kernel: the locals, the position,
and the log of the system calls made so far (a history variable, read by no statement). -/
structure Sys where
  kernel : Kernel
  cap : Capture
  pc : Pc
  trace : List Op
  deriving DecidableEq, Repr

/-- The loop condition `!(ended && pipe_empty)`. -/
def loopCond (c : Capture) : Bool :=
  !(c.ended && c.pipe_empty)

/-- Lines 176 and 177: `pipe_empty = true; pipe_empty = pipe_empty && !read_into_buffer(stdout…)`.
The left operand is `true`, so the read is always evaluated. -/
def stmtReadOut (s : Sys) : Sys :=
  let (r, rest) := sys_read s.kernel.out_pipe
  let (got, buffer, index) := read_into_buffer r s.cap.stdout_buffer s.cap.stdout_index
  { s with
    kernel := { s.kernel with out_pipe := rest }
    cap := { s.cap with stdout_buffer := buffer, stdout_index := index, pipe_empty := true && !got }
    trace := s.trace ++ [.readOut r] }

/-- Line 178: `pipe_empty = pipe_empty && !read_into_buffer(stderr…)`. `&&` evaluates its right
operand only when the left one is true. -/
def stmtReadErr (s : Sys) : Sys :=
  if s.cap.pipe_empty then
    let (r, rest) := sys_read s.kernel.err_pipe
    let (got, buffer, index) := read_into_buffer r s.cap.stderr_buffer s.cap.stderr_index
    { s with
      kernel := { s.kernel with err_pipe := rest }
      cap := { s.cap with stderr_buffer := buffer, stderr_index := index, pipe_empty := true && !got }
      trace := s.trace ++ [.readErr r] }
  else s

/-- Lines 181 to 186: `if (!ended) { wait_result = waitpid(…); if (wait_result != 0) ended = true; }`.
`wait` is what `waitpid` returns to this process. -/
def stmtPoll (wait : Kernel → Int) (s : Sys) : Sys :=
  if !s.cap.ended then
    let wait_result := wait s.kernel
    { s with
      cap := { s.cap with ended := if wait_result != 0 then true else s.cap.ended }
      trace := s.trace ++ [.poll wait_result] }
  else s

/-- One execution of the loop body (lines 175 to 186) with nothing happening in between. -/
def loopBody (wait : Kernel → Int) (s : Sys) : Sys :=
  stmtPoll wait (stmtReadErr (stmtReadOut s))

/-- The loop `while (!(ended && pipe_empty))` run without interference: the state after the
loop and the number of iterations made, `none` when `fuel` iterations do not end it. -/
def whileLoop (wait : Kernel → Int) : Nat → Sys → Option (Sys × Nat)
  | 0, s => if loopCond s.cap then none else some (s, 0)
  | fuel + 1, s =>
    if loopCond s.cap then
      (whileLoop wait fuel (loopBody wait s)).map (fun (t, n) => (t, n + 1))
    else some (s, 0)

/-- The number of 64-byte reads that empty a pipe holding `n` bytes: `ceil(n / 64)`. -/
def ceil64 (n : Nat) : Nat :=
  (n + 63) / 64

/-- The position reached through the loop condition. -/
def atLoopHead (c : Capture) : Pc :=
  if loopCond c then .readOut else .done

/-- The position after the reads of an iteration: the `waitpid` if `!ended`, else the loop
condition. -/
def afterReads (c : Capture) : Pc :=
  if !c.ended then .poll else atLoopHead c

/-- The next system call of the process and the statement around it; between two such steps
other processes may run. -/
def procStep (wait : Kernel → Int) (s : Sys) : Sys :=
  match s.pc with
  | .readOut =>
    let t := stmtReadOut s
    { t with pc := if t.cap.pipe_empty then .readErr else afterReads t.cap }
  | .readErr =>
    let t := stmtReadErr s
    { t with pc := afterReads t.cap }
  | .poll =>
    let t := stmtPoll wait s
    { t with pc := atLoopHead t.cap }
  | .done => s

/-- What can happen next: the parent makes its next system call, or the child program
writes to its standard output or standard error, or terminates. -/
inductive Event where
  | parent
  | childWriteOut (bytes : List Byte)
  | childWriteErr (bytes : List Byte)
  | childExit
  deriving DecidableEq, Repr

/-- One event of an execution. A terminated child writes nothing. -/
def step (s : Sys) : Event → Sys
  | .parent => procStep sys_waitpid s
  | .childWriteOut bytes =>
    if s.kernel.child_exited then s
    else { s with kernel := { s.kernel with out_pipe := s.kernel.out_pipe ++ bytes } }
  | .childWriteErr bytes =>
    if s.kernel.child_exited then s
    else { s with kernel := { s.kernel with err_pipe := s.kernel.err_pipe ++ bytes } }
  | .childExit => { s with kernel := { s.kernel with child_exited := true } }

/-- The state after a sequence of events. -/
def run (s : Sys) (events : List Event) : Sys :=
  events.foldl step s

/-- The parent entering the loop right after `fork`: empty pipes, a running child, and the
loop condition `!(false && true)` passed. -/
def Sys.init : Sys :=
  { kernel := { out_pipe := [], err_pipe := [], child_exited := false }
    cap := Capture.init
    pc := .readOut
    trace := [] }

/-- A state at the start of an iteration after the exit of the child was seen: 65 bytes are
left in the stdout pipe and one in the stderr pipe. -/
def drainExample : Sys :=
  { kernel := { out_pipe := List.replicate 65 1, err_pipe := [2], child_exited := true }
    cap := { Capture.init with ended := true, pipe_empty := false }
    pc := .readOut
    trace := [] }

/-- The bytes a system call of the log delivered from the stdout pipe. -/
def Op.outChunk : Op → List Byte
  | .readOut r => r.stored
  | _ => []

/-- The bytes a system call of the log delivered from the stderr pipe. -/
def Op.errChunk : Op → List Byte
  | .readErr r => r.stored
  | _ => []

/-- The concatenation, in the order of the calls, of the chunks read from the stdout pipe. -/
def capturedOut : List Op → List Byte
  | [] => []
  | op :: ops => op.outChunk ++ capturedOut ops

/-- The concatenation, in the order of the calls, of the chunks read from the stderr pipe. -/
def capturedErr : List Op → List Byte
  | [] => []
  | op :: ops => op.errChunk ++ capturedErr ops

/-- The invariant of a process in the capture loop: each vector is 64 bytes longer than its
index, and its first `index` bytes are the chunks read from its pipe, in order. -/
def CapInv (s : Sys) : Prop :=
  s.cap.stdout_buffer.length = s.cap.stdout_index + 64 ∧
  s.cap.stderr_buffer.length = s.cap.stderr_index + 64 ∧
  s.cap.stdout_buffer.take s.cap.stdout_index = capturedOut s.trace ∧
  s.cap.stderr_buffer.take s.cap.stderr_index = capturedErr s.trace

/-- The bytes of a text. -/
def bytesOf (text : String) : List Byte :=
  text.toList.map Char.toNat

/-- The lambda `print_buffer`: every `char` of the vector, then a newline. -/
def print_buffer (buffer : List Byte) : List Byte :=
  buffer ++ bytesOf "\n"

/-- Lines 196 to 199: what `runCommand` writes to `std::cout` after the loop. -/
def report (c : Capture) : List Byte :=
  bytesOf "====STDOUT====\n" ++ print_buffer c.stdout_buffer ++
    bytesOf "====STDERR====\n" ++ print_buffer c.stderr_buffer

/-! ### The child when `execvp` fails

`execvp` returns, `perror` writes to file descriptor 2, which `dup2` has made the write end of
the stderr pipe, and the child leaves the `if` block: it goes on through the parent's code with
`pid == 0`, its `std::cout` being the stdout pipe. -/

/-- How far the child is: before `perror`, in its own copy of the capture loop, before its
report is written, before it terminates, terminated. -/
inductive ChildStage where
  | perror
  | capture
  | report
  | exit
  | exited
  deriving DecidableEq, Repr

/-- The text of `perror("child process")` for `ENOENT`. -/
def perrorText : List Byte :=
  bytesOf "child process: No such file or directory\n"

/-- In the child `pid` is `0` and it has no children: `waitpid(0, …, WNOHANG)` returns `-1`
(`ECHILD`). -/
def child_waitpid (_ : Kernel) : Int := -1

/-- Parent and child after a `fork` whose `execvp` fails: `sys` holds the kernel and the
parent, the other fields the child's stage and locals. -/
structure ForkSys where
  sys : Sys
  stage : ChildStage
  child_cap : Capture
  child_pc : Pc
  deriving DecidableEq, Repr

/-- Who runs next. -/
inductive Turn where
  | parent
  | child
  deriving DecidableEq, Repr

/-- The next step of the child whose `execvp` failed. -/
def childStep (f : ForkSys) : ForkSys :=
  match f.stage with
  | .perror =>
    { f with
      sys := { f.sys with kernel := { f.sys.kernel with err_pipe := f.sys.kernel.err_pipe ++ perrorText } }
      stage := .capture }
  | .capture =>
    let c := procStep child_waitpid
      { kernel := f.sys.kernel, cap := f.child_cap, pc := f.child_pc, trace := [] }
    { f with
      sys := { f.sys with kernel := c.kernel }
      stage := if c.pc = .done then .report else .capture
      child_cap := c.cap
      child_pc := c.pc }
  | .report =>
    { f with
      sys := { f.sys with kernel := { f.sys.kernel with out_pipe := f.sys.kernel.out_pipe ++ report f.child_cap } }
      stage := .exit }
  | .exit =>
    { f with
      sys := { f.sys with kernel := { f.sys.kernel with child_exited := true } }
      stage := .exited }
  | .exited => f

/-- One step of the pair of processes. -/
def forkStep (f : ForkSys) : Turn → ForkSys
  | .parent => { f with sys := procStep sys_waitpid f.sys }
  | .child => childStep f

/-- The state after a schedule. -/
def forkRun (f : ForkSys) (turns : List Turn) : ForkSys :=
  turns.foldl forkStep f

/-- Right after `fork`, `execvp` about to fail in the child. -/
def ForkSys.init : ForkSys :=
  { sys := Sys.init, stage := .perror, child_cap := Capture.init, child_pc := .readOut }

/-! ## Lemmas on the tokenizer -/

theorem strpbrk_lt (l : List Char) (off : Nat) (h : strpbrk l = some off) : off < l.length := by
  induction l generalizing off with
  | nil => simp [strpbrk] at h
  | cons c cs ih =>
    simp only [strpbrk] at h
    split at h
    · simp only [Option.some.injEq] at h
      subst h
      simp
    · cases hs : strpbrk cs with
      | none => simp [hs] at h
      | some k =>
        simp only [hs, Option.map_some', Option.some.injEq] at h
        subst h
        have := ih k hs
        simp only [List.length_cons]
        omega

theorem strpbrk_of_delimiter (c : Char) (cs : List Char) (h : isDelimiter c = true) :
    strpbrk (c :: cs) = some 0 := by
  simp [strpbrk, h]

/-- After a call of `get_next_token` either `ended` is set or `iter` has moved forward. -/
theorem get_next_token_progress (lx : Lexer) :
    (get_next_token lx).2.ended = true ∨ (get_next_token lx).2.iter.length < lx.iter.length := by
  unfold get_next_token
  split
  · exact Or.inl rfl
  · next off h =>
    have := strpbrk_lt lx.iter off h
    right
    simp only [List.length_drop]
    omega

theorem get_next_token_iter_subset (lx : Lexer) :
    ∀ c ∈ (get_next_token lx).2.iter, c ∈ lx.iter := by
  unfold get_next_token
  split
  · intro c hc
    exact hc
  · intro c hc
    exact List.mem_of_mem_drop hc

/-- On a string of delimiters only, `get_next_token` returns the empty token. -/
theorem get_next_token_of_delimiters (lx : Lexer)
    (h : ∀ c ∈ lx.iter, isDelimiter c = true) : (get_next_token lx).1 = [] := by
  unfold get_next_token
  cases hi : lx.iter with
  | nil => simp [strpbrk]
  | cons c cs =>
    have hc : isDelimiter c = true := h c (by simp [hi])
    simp [strpbrk_of_delimiter c cs hc]

/-- On a string that starts with a non-delimiter, `get_next_token` returns a non-empty token. -/
theorem get_next_token_of_nondelimiter (lx : Lexer) (c : Char) (cs : List Char)
    (hi : lx.iter = c :: cs) (hc : isDelimiter c = false) : (get_next_token lx).1 ≠ [] := by
  unfold get_next_token
  rw [hi]
  cases hs : strpbrk cs with
  | none => simp [strpbrk, hc, hs]
  | some k => simp [strpbrk, hc, hs]

/-- The loop of `parseCommand` ends within the fuel, keeps what was pushed before, pushes
only non-empty tokens, and pushes nothing when only delimiters are left. -/
theorem tokenLoop_spec :
    ∀ (fuel : Nat) (lx : Lexer) (arguments : List (List Char)),
      (lx.ended = true ∨ lx.iter.length < fuel) →
      ∃ extra, tokenLoop fuel lx arguments = some (arguments ++ extra) ∧
        (∀ t ∈ extra, t ≠ []) ∧
        ((∀ c ∈ lx.iter, isDelimiter c = true) → extra = []) := by
  intro fuel
  induction fuel with
  | zero =>
    intro lx arguments h
    have he : lx.ended = true := by
      rcases h with h | h
      · exact h
      · omega
    exact ⟨[], by simp [tokenLoop, he], by simp, fun _ => rfl⟩
  | succ fuel ih =>
    intro lx arguments h
    by_cases he : lx.ended = true
    · exact ⟨[], by simp [tokenLoop, he], by simp, fun _ => rfl⟩
    · have hlen : lx.iter.length < fuel + 1 := by
        rcases h with h | h
        · exact absurd h he
        · exact h
      have hnext : (get_next_token lx).2.ended = true
          ∨ (get_next_token lx).2.iter.length < fuel := by
        rcases get_next_token_progress lx with hp | hp
        · exact Or.inl hp
        · right
          omega
      by_cases hd : (get_next_token lx).1.headD '\x00' = '\x00'
      · obtain ⟨extra, h1, h2, h3⟩ := ih (get_next_token lx).2 arguments hnext
        refine ⟨extra, ?_, h2, ?_⟩
        · simp only [tokenLoop, he, hd]
          simpa using h1
        · intro hall
          exact h3 (fun c hc => hall c (get_next_token_iter_subset lx c hc))
      · obtain ⟨extra, h1, h2, h3⟩ :=
          ih (get_next_token lx).2 (arguments ++ [(get_next_token lx).1]) hnext
        have hne : (get_next_token lx).1 ≠ [] := by
          intro hnil
          rw [hnil] at hd
          exact hd rfl
        have hd2 : ¬ (get_next_token lx).1.head?.getD '\x00' = '\x00' := by
          simpa using hd
        refine ⟨(get_next_token lx).1 :: extra, ?_, ?_, ?_⟩
        · simp only [tokenLoop, he]
          simpa [hd2] using h1
        · intro t ht
          rcases List.mem_cons.mp ht with ht | ht
          · rw [ht]
            exact hne
          · exact h2 t ht
        · intro hall
          exact absurd (get_next_token_of_delimiters lx hall) hne

theorem strpbrk_none_spec (l : List Char) (h : strpbrk l = none) :
    ∀ x ∈ l, isDelimiter x = false := by
  induction l with
  | nil => simp
  | cons c cs ih =>
    simp only [strpbrk] at h
    split at h
    · simp at h
    · next hc =>
      have hcs : strpbrk cs = none := by
        cases hs : strpbrk cs with
        | none => rfl
        | some k => simp [hs] at h
      intro x hx
      rcases List.mem_cons.mp hx with hx | hx
      · rw [hx]
        simpa using hc
      · exact ih hcs x hx

theorem strpbrk_some_spec (l : List Char) (off : Nat) (h : strpbrk l = some off) :
    (∀ x ∈ l.take off, isDelimiter x = false) ∧
    ∃ d, isDelimiter d = true ∧ l = l.take off ++ d :: l.drop (off + 1) := by
  induction l generalizing off with
  | nil => simp [strpbrk] at h
  | cons c cs ih =>
    simp only [strpbrk] at h
    split at h
    · next hc =>
      simp only [Option.some.injEq] at h
      subst h
      exact ⟨by simp, c, hc, by simp⟩
    · next hc =>
      cases hs : strpbrk cs with
      | none => simp [hs] at h
      | some k =>
        simp only [hs, Option.map_some', Option.some.injEq] at h
        subst h
        obtain ⟨h1, d, hd, hsplit⟩ := ih k hs
        refine ⟨?_, d, hd, ?_⟩
        · intro x hx
          simp only [List.take_succ_cons, List.mem_cons] at hx
          rcases hx with hx | hx
          · rw [hx]
            simpa using hc
          · exact h1 x hx
        · simp only [List.take_succ_cons, List.drop_succ_cons, List.cons_append]
          rw [← hsplit]

theorem tokenLoop_ended (fuel : Nat) (lx : Lexer) (arguments : List (List Char))
    (h : lx.ended = true) : tokenLoop fuel lx arguments = some arguments := by
  cases fuel with
  | zero => simp [tokenLoop, h]
  | succ f => simp [tokenLoop, h]

theorem headD_nul_iff (t : List Char) (h : '\x00' ∉ t) :
    t.headD '\x00' = '\x00' ↔ t = [] := by
  cases t with
  | nil => simp
  | cons c cs =>
    simp only [List.headD_cons, reduceCtorEq, iff_false]
    intro hc
    exact h (by simp [hc])

theorem maximalRuns_of_none (l : List Char) (h : strpbrk l = none) :
    maximalRuns l = if l = [] then [] else [l] := by
  have hs : l.splitOnP isDelimiter = [l] :=
    List.splitOnP_eq_single isDelimiter l (fun x hx => by simp [strpbrk_none_spec l h x hx])
  unfold maximalRuns
  rw [hs]
  cases l with
  | nil => simp
  | cons c cs => simp

theorem maximalRuns_of_some (l : List Char) (off : Nat) (h : strpbrk l = some off) :
    maximalRuns l
      = (if l.take off = [] then [] else [l.take off]) ++ maximalRuns (l.drop (off + 1)) := by
  obtain ⟨h1, d, hd, hsplit⟩ := strpbrk_some_spec l off h
  have hs : l.splitOnP isDelimiter
      = l.take off :: (l.drop (off + 1)).splitOnP isDelimiter := by
    conv_lhs => rw [hsplit]
    exact List.splitOnP_first isDelimiter _ (fun x hx => by simp [h1 x hx]) d hd _
  unfold maximalRuns
  rw [hs]
  by_cases ht : l.take off = []
  · simp [ht]
  · have hne : (List.take off l).isEmpty = false := by
      cases hl : List.take off l with
      | nil => exact absurd hl ht
      | cons a as => rfl
    simp [List.filter_cons, ht, hne]

/-- The loop of `parseCommand` pushes the maximal non-whitespace runs of what is left of the
source. -/
theorem tokenLoop_runs :
    ∀ (fuel : Nat) (lx : Lexer) (arguments : List (List Char)),
      lx.ended = false → lx.iter.length < fuel → '\x00' ∉ lx.iter →
      tokenLoop fuel lx arguments = some (arguments ++ maximalRuns lx.iter) := by
  intro fuel
  induction fuel with
  | zero =>
    intro lx arguments _ h _
    omega
  | succ fuel ih =>
    intro lx arguments he hlen hnul
    cases hs : strpbrk lx.iter with
    | none =>
      have hg : get_next_token lx = (lx.iter, { lx with ended := true }) := by
        simp [get_next_token, hs]
      rw [maximalRuns_of_none lx.iter hs]
      by_cases hnil : lx.iter = []
      · simp [tokenLoop, he, hg, hnil, tokenLoop_ended]
      · have hd : ¬ lx.iter.head?.getD '\x00' = '\x00' := by
          have := (headD_nul_iff lx.iter hnul).not.mpr hnil
          simpa using this
        simp [tokenLoop, he, hg, hnil, hd, tokenLoop_ended]
    | some off =>
      have hg : get_next_token lx
          = (lx.iter.take off, { lx with iter := lx.iter.drop (off + 1) }) := by
        simp [get_next_token, hs]
      have hoff := strpbrk_lt lx.iter off hs
      have hrest : '\x00' ∉ lx.iter.drop (off + 1) := fun hm => hnul (List.mem_of_mem_drop hm)
      have htok : '\x00' ∉ lx.iter.take off := fun hm => hnul (List.mem_of_mem_take hm)
      have hrec := fun args => ih { lx with iter := lx.iter.drop (off + 1) } args he
        (by simp only [List.length_drop]; omega) hrest
      rw [maximalRuns_of_some lx.iter off hs]
      by_cases hnil : lx.iter.take off = []
      · have hd : (lx.iter.take off).head?.getD '\x00' = '\x00' := by
          rw [hnil]
          rfl
        simp only [tokenLoop, he, hg]
        simpa [hd, hnil, he] using hrec arguments
      · have hd : ¬ (lx.iter.take off).head?.getD '\x00' = '\x00' := by
          have := (headD_nul_iff (lx.iter.take off) htok).not.mpr hnil
          simpa using this
        simp only [tokenLoop, he, hg]
        simpa [hd, hnil, he] using hrec (arguments ++ [lx.iter.take off])

/-! ## Lemmas on `read` and `read_into_buffer` -/

theorem storeAt_nil (buffer : List Byte) (index : Nat) : storeAt buffer index [] = buffer := by
  simp [storeAt]

theorem storeAt_length (buffer : List Byte) (index : Nat) (chunk : List Byte)
    (h : index + chunk.length ≤ buffer.length) :
    (storeAt buffer index chunk).length = buffer.length := by
  simp only [storeAt, List.length_append, List.length_take, List.length_drop]
  omega

theorem storeAt_take (buffer : List Byte) (index : Nat) (chunk : List Byte)
    (h : index ≤ buffer.length) :
    (storeAt buffer index chunk).take (index + chunk.length) = buffer.take index ++ chunk := by
  have hlen : (buffer.take index ++ chunk).length = index + chunk.length := by
    simp only [List.length_append, List.length_take]
    omega
  unfold storeAt
  rw [← hlen, List.take_left]

theorem ret_pos_iff (r : ReadOutcome) : 0 < r.ret ↔ r.stored ≠ [] := by
  cases r with
  | fail => simp [ReadOutcome.ret, ReadOutcome.stored]
  | bytes chunk =>
    cases chunk with
    | nil => simp [ReadOutcome.ret, ReadOutcome.stored]
    | cons b bs =>
      simp only [ReadOutcome.ret, ReadOutcome.stored, List.length_cons, ne_eq, reduceCtorEq,
        not_false_eq_true, iff_true]
      omega

theorem ret_toNat (r : ReadOutcome) : r.ret.toNat = r.stored.length := by
  cases r with
  | fail => simp [ReadOutcome.ret, ReadOutcome.stored]
  | bytes chunk => simp [ReadOutcome.ret, ReadOutcome.stored]

theorem read_into_buffer_of_pos (r : ReadOutcome) (buffer : List Byte) (index : Nat)
    (h : 0 < r.ret) :
    read_into_buffer r buffer index =
      (true, storeAt buffer index r.stored ++ List.replicate r.stored.length 0,
        index + r.stored.length) := by
  have h0 : ¬ r.ret = 0 := by omega
  have h1 : ¬ r.ret < 0 := by omega
  simp [read_into_buffer, h0, h1, ret_toNat]

theorem read_into_buffer_of_nonpos (r : ReadOutcome) (buffer : List Byte) (index : Nat)
    (h : r.ret ≤ 0) :
    read_into_buffer r buffer index = (false, buffer, index) := by
  have hs : r.stored = [] := by
    by_contra hne
    have := (ret_pos_iff r).mpr hne
    omega
  by_cases h0 : r.ret = 0
  · simp [read_into_buffer, h0, hs, storeAt_nil]
  · have h1 : r.ret < 0 := by omega
    simp [read_into_buffer, h0, h1, hs, storeAt_nil]

theorem read_into_buffer_fst (r : ReadOutcome) (buffer : List Byte) (index : Nat) :
    (read_into_buffer r buffer index).1 = decide (0 < r.ret) := by
  by_cases h : 0 < r.ret
  · simp [read_into_buffer_of_pos r buffer index h, h]
  · simp [read_into_buffer_of_nonpos r buffer index (by omega), h]

theorem sys_read_stored_le (pipe : List Byte) : (sys_read pipe).1.stored.length ≤ 64 := by
  unfold sys_read
  split
  · simp [ReadOutcome.stored]
  · simp only [ReadOutcome.stored, List.length_take]
    omega

theorem sys_read_append (pipe : List Byte) : (sys_read pipe).1.stored ++ (sys_read pipe).2 = pipe := by
  unfold sys_read
  split
  · next h => simp [ReadOutcome.stored, h]
  · simp [ReadOutcome.stored]

theorem sys_read_ret_pos (pipe : List Byte) : 0 < (sys_read pipe).1.ret ↔ pipe ≠ [] := by
  unfold sys_read
  split
  · next h => simp [ReadOutcome.ret, h]
  · next h =>
    cases pipe with
    | nil => exact absurd rfl h
    | cons b bs => simp [ReadOutcome.ret]; omega

/-! ## Invariants of the capture loop -/

theorem capturedOut_append (xs ys : List Op) :
    capturedOut (xs ++ ys) = capturedOut xs ++ capturedOut ys := by
  induction xs with
  | nil => rfl
  | cons x xs ih => simp [capturedOut, ih]

theorem capturedErr_append (xs ys : List Op) :
    capturedErr (xs ++ ys) = capturedErr xs ++ capturedErr ys := by
  induction xs with
  | nil => rfl
  | cons x xs ih => simp [capturedErr, ih]

/-- One stream after a call of `read_into_buffer`: capacity and captured prefix. -/
theorem read_into_buffer_captured (r : ReadOutcome) (buffer : List Byte) (index : Nat)
    (hcap : buffer.length = index + 64) (hle : r.stored.length ≤ 64) :
    (read_into_buffer r buffer index).2.1.length = (read_into_buffer r buffer index).2.2 + 64 ∧
    (read_into_buffer r buffer index).2.1.take (read_into_buffer r buffer index).2.2
      = buffer.take index ++ r.stored := by
  by_cases h : 0 < r.ret
  · rw [read_into_buffer_of_pos r buffer index h]
    have hl := storeAt_length buffer index r.stored (by omega)
    refine ⟨?_, ?_⟩
    · simp only [List.length_append, List.length_replicate, hl]
      omega
    · simp only
      rw [List.take_append_of_le_length (by omega)]
      exact storeAt_take buffer index r.stored (by omega)
  · have hs : r.stored = [] := by
      by_contra hne
      exact h ((ret_pos_iff r).mpr hne)
    rw [read_into_buffer_of_nonpos r buffer index (by omega)]
    simp [hcap, hs]

theorem capInv_init : CapInv Sys.init := by
  simp [CapInv, Sys.init, Capture.init, capturedOut, capturedErr]

theorem capInv_stmtReadOut (s : Sys) (h : CapInv s) : CapInv (stmtReadOut s) := by
  obtain ⟨h1, h2, h3, h4⟩ := h
  have hp := read_into_buffer_captured (sys_read s.kernel.out_pipe).1 s.cap.stdout_buffer
    s.cap.stdout_index h1 (sys_read_stored_le _)
  refine ⟨hp.1, h2, ?_, ?_⟩
  · simp only [stmtReadOut, capturedOut_append, capturedOut, Op.outChunk, List.append_nil]
    rw [← h3]
    exact hp.2
  · simp only [stmtReadOut, capturedErr_append, capturedErr, Op.errChunk, List.append_nil]
    exact h4

theorem capInv_stmtReadErr (s : Sys) (h : CapInv s) : CapInv (stmtReadErr s) := by
  obtain ⟨h1, h2, h3, h4⟩ := h
  unfold stmtReadErr
  split
  · have hp := read_into_buffer_captured (sys_read s.kernel.err_pipe).1 s.cap.stderr_buffer
      s.cap.stderr_index h2 (sys_read_stored_le _)
    refine ⟨h1, hp.1, ?_, ?_⟩
    · simp only [capturedOut_append, capturedOut, Op.outChunk, List.append_nil]
      exact h3
    · simp only [capturedErr_append, capturedErr, Op.errChunk, List.append_nil]
      rw [← h4]
      exact hp.2
  · exact ⟨h1, h2, h3, h4⟩

theorem capInv_stmtPoll (wait : Kernel → Int) (s : Sys) (h : CapInv s) :
    CapInv (stmtPoll wait s) := by
  obtain ⟨h1, h2, h3, h4⟩ := h
  unfold stmtPoll
  split
  · refine ⟨h1, h2, ?_, ?_⟩
    · simp only [capturedOut_append, capturedOut, Op.outChunk, List.append_nil]
      exact h3
    · simp only [capturedErr_append, capturedErr, Op.errChunk, List.append_nil]
      exact h4
  · exact ⟨h1, h2, h3, h4⟩

theorem capInv_procStep (wait : Kernel → Int) (s : Sys) (h : CapInv s) :
    CapInv (procStep wait s) := by
  unfold procStep
  split
  · exact capInv_stmtReadOut s h
  · exact capInv_stmtReadErr s h
  · exact capInv_stmtPoll wait s h
  · exact h

theorem capInv_step (s : Sys) (e : Event) (h : CapInv s) : CapInv (step s e) := by
  cases e with
  | parent => exact capInv_procStep sys_waitpid s h
  | childWriteOut bytes =>
    simp only [step]
    split
    · exact h
    · exact h
  | childWriteErr bytes =>
    simp only [step]
    split
    · exact h
    · exact h
  | childExit => exact h

theorem capInv_run (events : List Event) (s : Sys) (h : CapInv s) : CapInv (run s events) := by
  induction events generalizing s with
  | nil => exact h
  | cons e es ih => exact ih (step s e) (capInv_step s e h)

theorem capInv_loopBody (wait : Kernel → Int) (s : Sys) (h : CapInv s) :
    CapInv (loopBody wait s) :=
  capInv_stmtPoll wait _ (capInv_stmtReadErr _ (capInv_stmtReadOut s h))

theorem trace_procStep (wait : Kernel → Int) (s : Sys) :
    ∃ ops, (procStep wait s).trace = s.trace ++ ops := by
  unfold procStep
  split
  · exact ⟨_, rfl⟩
  · simp only [stmtReadErr]
    split
    · exact ⟨_, rfl⟩
    · exact ⟨[], by simp⟩
  · simp only [stmtPoll]
    split
    · exact ⟨_, rfl⟩
    · exact ⟨[], by simp⟩
  · exact ⟨[], by simp⟩

theorem trace_step (s : Sys) (e : Event) : ∃ ops, (step s e).trace = s.trace ++ ops := by
  cases e with
  | parent => exact trace_procStep sys_waitpid s
  | childWriteOut bytes =>
    simp only [step]
    split
    · exact ⟨[], by simp⟩
    · exact ⟨[], by simp⟩
  | childWriteErr bytes =>
    simp only [step]
    split
    · exact ⟨[], by simp⟩
    · exact ⟨[], by simp⟩
  | childExit => exact ⟨[], by simp [step]⟩

theorem trace_run (events : List Event) (s : Sys) :
    ∃ ops, (run s events).trace = s.trace ++ ops := by
  induction events generalizing s with
  | nil => exact ⟨[], by simp [run]⟩
  | cons e es ih =>
    obtain ⟨ops1, h1⟩ := trace_step s e
    obtain ⟨ops2, h2⟩ := ih (step s e)
    refine ⟨ops1 ++ ops2, ?_⟩
    have : run s (e :: es) = run (step s e) es := rfl
    rw [this, h2, h1, List.append_assoc]

theorem run_append (s : Sys) (xs ys : List Event) : run s (xs ++ ys) = run (run s xs) ys := by
  simp [run, List.foldl_append]

/-- The steps of a process from the start of an iteration to the next test of the loop
condition, run without interruption, are the loop body. -/
theorem procStep_iteration (wait : Kernel → Int) (s : Sys) (h : s.pc = .readOut) :
    ∃ n, 1 ≤ n ∧ n ≤ 3 ∧
      (procStep wait)^[n] s
        = { loopBody wait s with pc := atLoopHead (loopBody wait s).cap } := by
  by_cases hpos : 0 < (sys_read s.kernel.out_pipe).1.ret
  · by_cases he : s.cap.ended = true
    · refine ⟨1, by omega, by omega, ?_⟩
      simp [procStep, h, loopBody, stmtPoll, stmtReadErr, stmtReadOut, read_into_buffer_fst,
        hpos, he, afterReads]
    · refine ⟨2, by omega, by omega, ?_⟩
      simp [procStep, h, loopBody, stmtPoll, stmtReadErr, stmtReadOut, read_into_buffer_fst,
        hpos, he, afterReads]
  · by_cases he : s.cap.ended = true
    · refine ⟨2, by omega, by omega, ?_⟩
      simp [procStep, h, loopBody, stmtPoll, stmtReadErr, stmtReadOut, read_into_buffer_fst,
        hpos, he, afterReads]
    · refine ⟨3, by omega, by omega, ?_⟩
      simp [procStep, h, loopBody, stmtPoll, stmtReadErr, stmtReadOut, read_into_buffer_fst,
        hpos, he, afterReads]

/-! ## The loop after the child has exited -/

theorem whileLoop_of_not_cond (wait : Kernel → Int) (fuel : Nat) (s : Sys)
    (h : loopCond s.cap = false) : whileLoop wait fuel s = some (s, 0) := by
  cases fuel with
  | zero => simp [whileLoop, h]
  | succ f => simp [whileLoop, h]

theorem whileLoop_of_cond (wait : Kernel → Int) (fuel : Nat) (s : Sys)
    (h : loopCond s.cap = true) :
    whileLoop wait (fuel + 1) s
      = (whileLoop wait fuel (loopBody wait s)).map (fun (t, n) => (t, n + 1)) := by
  simp [whileLoop, h]

/-- An iteration with `ended` set and bytes in the stdout pipe: one chunk moves from the pipe
to the stdout vector, nothing else changes, and the loop goes on. -/
theorem loopBody_ended_out (wait : Kernel → Int) (s : Sys) (he : s.cap.ended = true)
    (hne : s.kernel.out_pipe ≠ [])
    (hcap : s.cap.stdout_buffer.length = s.cap.stdout_index + 64) :
    (loopBody wait s).kernel.out_pipe = s.kernel.out_pipe.drop 64 ∧
    (loopBody wait s).kernel.err_pipe = s.kernel.err_pipe ∧
    (loopBody wait s).cap.ended = true ∧
    loopCond (loopBody wait s).cap = true ∧
    (loopBody wait s).cap.stdout_buffer.length = (loopBody wait s).cap.stdout_index + 64 ∧
    (loopBody wait s).cap.stdout_buffer.take (loopBody wait s).cap.stdout_index
      = s.cap.stdout_buffer.take s.cap.stdout_index ++ s.kernel.out_pipe.take 64 ∧
    (loopBody wait s).cap.stderr_buffer = s.cap.stderr_buffer ∧
    (loopBody wait s).cap.stderr_index = s.cap.stderr_index := by
  have hr : sys_read s.kernel.out_pipe
      = (.bytes (s.kernel.out_pipe.take 64), s.kernel.out_pipe.drop 64) := by
    simp [sys_read, hne]
  have hpos : 0 < (ReadOutcome.bytes (s.kernel.out_pipe.take 64)).ret := by
    have := (sys_read_ret_pos s.kernel.out_pipe).mpr hne
    rwa [hr] at this
  have hp := read_into_buffer_captured (.bytes (s.kernel.out_pipe.take 64)) s.cap.stdout_buffer
    s.cap.stdout_index hcap (by simp [ReadOutcome.stored])
  have hf := read_into_buffer_fst (.bytes (s.kernel.out_pipe.take 64)) s.cap.stdout_buffer
    s.cap.stdout_index
  simp only [hpos, decide_True] at hf
  simp only [loopBody, stmtPoll, stmtReadErr, stmtReadOut, hr, hf, he, loopCond]
  simp only [ReadOutcome.stored] at hp
  simpa using hp

/-- An iteration with `ended` set, an empty stdout pipe and bytes in the stderr pipe: one chunk
moves from the pipe to the stderr vector, nothing else changes, and the loop goes on. -/
theorem loopBody_ended_err (wait : Kernel → Int) (s : Sys) (he : s.cap.ended = true)
    (ho : s.kernel.out_pipe = []) (hne : s.kernel.err_pipe ≠ [])
    (hcap : s.cap.stderr_buffer.length = s.cap.stderr_index + 64) :
    (loopBody wait s).kernel.out_pipe = [] ∧
    (loopBody wait s).kernel.err_pipe = s.kernel.err_pipe.drop 64 ∧
    (loopBody wait s).cap.ended = true ∧
    loopCond (loopBody wait s).cap = true ∧
    (loopBody wait s).cap.stderr_buffer.length = (loopBody wait s).cap.stderr_index + 64 ∧
    (loopBody wait s).cap.stderr_buffer.take (loopBody wait s).cap.stderr_index
      = s.cap.stderr_buffer.take s.cap.stderr_index ++ s.kernel.err_pipe.take 64 ∧
    (loopBody wait s).cap.stdout_buffer = s.cap.stdout_buffer ∧
    (loopBody wait s).cap.stdout_index = s.cap.stdout_index := by
  have hro : sys_read s.kernel.out_pipe = (.fail, []) := by
    simp [sys_read, ho]
  have hfo := read_into_buffer_of_nonpos .fail s.cap.stdout_buffer s.cap.stdout_index
    (by simp [ReadOutcome.ret])
  have hr : sys_read s.kernel.err_pipe
      = (.bytes (s.kernel.err_pipe.take 64), s.kernel.err_pipe.drop 64) := by
    simp [sys_read, hne]
  have hpos : 0 < (ReadOutcome.bytes (s.kernel.err_pipe.take 64)).ret := by
    have := (sys_read_ret_pos s.kernel.err_pipe).mpr hne
    rwa [hr] at this
  have hp := read_into_buffer_captured (.bytes (s.kernel.err_pipe.take 64)) s.cap.stderr_buffer
    s.cap.stderr_index hcap (by simp [ReadOutcome.stored])
  have hf := read_into_buffer_fst (.bytes (s.kernel.err_pipe.take 64)) s.cap.stderr_buffer
    s.cap.stderr_index
  simp only [hpos, decide_True] at hf
  simp only [loopBody, stmtPoll, stmtReadErr, stmtReadOut, hro, hfo, hr, hf, he, loopCond]
  simp only [ReadOutcome.stored] at hp
  simpa using hp

/-- An iteration with `ended` set and both pipes empty: nothing is read and the loop ends. -/
theorem loopBody_ended_empty (wait : Kernel → Int) (s : Sys) (he : s.cap.ended = true)
    (ho : s.kernel.out_pipe = []) (hne : s.kernel.err_pipe = []) :
    (loopBody wait s).kernel.out_pipe = [] ∧
    (loopBody wait s).kernel.err_pipe = [] ∧
    loopCond (loopBody wait s).cap = false ∧
    (loopBody wait s).cap.stdout_buffer = s.cap.stdout_buffer ∧
    (loopBody wait s).cap.stdout_index = s.cap.stdout_index ∧
    (loopBody wait s).cap.stderr_buffer = s.cap.stderr_buffer ∧
    (loopBody wait s).cap.stderr_index = s.cap.stderr_index := by
  have hro : sys_read s.kernel.out_pipe = (.fail, []) := by
    simp [sys_read, ho]
  have hre : sys_read s.kernel.err_pipe = (.fail, []) := by
    simp [sys_read, hne]
  have hfo := read_into_buffer_of_nonpos .fail s.cap.stdout_buffer s.cap.stdout_index
    (by simp [ReadOutcome.ret])
  have hfe := read_into_buffer_of_nonpos .fail s.cap.stderr_buffer s.cap.stderr_index
    (by simp [ReadOutcome.ret])
  simp [loopBody, stmtPoll, stmtReadErr, stmtReadOut, hro, hre, hfo, hfe, he, loopCond]

theorem ceil64_drop (pipe : List Byte) (h : pipe ≠ []) :
    ceil64 pipe.length = ceil64 (pipe.drop 64).length + 1 := by
  have hpos : 0 < pipe.length := List.length_pos.mpr h
  simp only [ceil64, List.length_drop]
  omega

theorem ceil64_nil : ceil64 ([] : List Byte).length = 0 := by
  simp [ceil64]

theorem whileLoop_drains_aux (wait : Kernel → Int) :
    ∀ (n : Nat) (s : Sys) (fuel : Nat),
      s.kernel.out_pipe.length + s.kernel.err_pipe.length = n →
      s.cap.ended = true → loopCond s.cap = true →
      s.cap.stdout_buffer.length = s.cap.stdout_index + 64 →
      s.cap.stderr_buffer.length = s.cap.stderr_index + 64 →
      ceil64 s.kernel.out_pipe.length + ceil64 s.kernel.err_pipe.length + 1 ≤ fuel →
      ∃ t, whileLoop wait fuel s
          = some (t, ceil64 s.kernel.out_pipe.length + ceil64 s.kernel.err_pipe.length + 1) ∧
        t.kernel.out_pipe = [] ∧ t.kernel.err_pipe = [] ∧ loopCond t.cap = false ∧
        t.cap.stdout_buffer.take t.cap.stdout_index
          = s.cap.stdout_buffer.take s.cap.stdout_index ++ s.kernel.out_pipe ∧
        t.cap.stderr_buffer.take t.cap.stderr_index
          = s.cap.stderr_buffer.take s.cap.stderr_index ++ s.kernel.err_pipe := by
  intro n
  induction n using Nat.strong_induction_on with
  | _ n ih =>
    intro s fuel hn he hc hco hce hfuel
    obtain ⟨f, rfl⟩ : ∃ f, fuel = f + 1 := ⟨fuel - 1, by omega⟩
    rw [whileLoop_of_cond wait f s hc]
    by_cases ho : s.kernel.out_pipe = []
    · by_cases hr : s.kernel.err_pipe = []
      · obtain ⟨h1, h2, h3, h4, h5, h6, h7⟩ := loopBody_ended_empty wait s he ho hr
        refine ⟨loopBody wait s, ?_, h1, h2, h3, ?_, ?_⟩
        · rw [whileLoop_of_not_cond wait f _ h3, ho, hr]
          simp [ceil64]
        · rw [h4, h5, ho, List.append_nil]
        · rw [h6, h7, hr, List.append_nil]
      · obtain ⟨h1, h2, h3, h4, h5, h6, h7, h8⟩ := loopBody_ended_err wait s he ho hr hce
        have hlen : 0 < s.kernel.err_pipe.length := List.length_pos.mpr hr
        have hstep := ceil64_drop s.kernel.err_pipe hr
        have hlt : (loopBody wait s).kernel.out_pipe.length
            + (loopBody wait s).kernel.err_pipe.length < n := by
          rw [h1, h2, List.length_drop, List.length_nil]
          omega
        obtain ⟨t, ht, t1, t2, t3, t4, t5⟩ := ih _ hlt (loopBody wait s) f rfl h3 h4
          (by rw [h7, h8]; exact hco) h5 (by rw [h1, h2]; rw [ho] at hfuel; omega)
        refine ⟨t, ?_, t1, t2, t3, ?_, ?_⟩
        · rw [ht, h1, h2, ho, hstep]
          rfl
        · rw [t4, h7, h8, h1, ho]
        · rw [t5, h6, h2, List.append_assoc, List.take_append_drop]
    · obtain ⟨h1, h2, h3, h4, h5, h6, h7, h8⟩ := loopBody_ended_out wait s he ho hco
      have hlen : 0 < s.kernel.out_pipe.length := List.length_pos.mpr ho
      have hstep := ceil64_drop s.kernel.out_pipe ho
      have hlt : (loopBody wait s).kernel.out_pipe.length
          + (loopBody wait s).kernel.err_pipe.length < n := by
        rw [h1, h2, List.length_drop]
        omega
      obtain ⟨t, ht, t1, t2, t3, t4, t5⟩ := ih _ hlt (loopBody wait s) f rfl h3 h4
        h5 (by rw [h7, h8]; exact hce) (by rw [h1, h2]; omega)
      refine ⟨t, ?_, t1, t2, t3, ?_, ?_⟩
      · rw [ht, h1, h2, hstep]
        simp only [Option.map_some', Option.some.injEq, Prod.mk.injEq, true_and]
        omega
      · rw [t4, h6, h1, List.append_assoc, List.take_append_drop]
      · rw [t5, h7, h8, h2]

/-! ## The claims -/

/-- C6: at every point of every execution of the capture loop (any interleaving of the parent's
system calls with writes and the exit of the child), the first `stdout_index` bytes of
`stdout_buffer` are the concatenation, in the order of the calls, of the chunks returned by the
reads on the stdout pipe, and likewise for stderr; whatever happens later, the bytes captured so
far stay as a prefix of the captured bytes; and the statement reading one stream leaves the
vector and index of the other stream unchanged. -/
theorem capture_appends_in_order (events : List Event) :
    (run Sys.init events).cap.stdout_buffer.take (run Sys.init events).cap.stdout_index
      = capturedOut (run Sys.init events).trace ∧
    (run Sys.init events).cap.stderr_buffer.take (run Sys.init events).cap.stderr_index
      = capturedErr (run Sys.init events).trace ∧
    (∀ later : List Event,
      (run Sys.init events).cap.stdout_buffer.take (run Sys.init events).cap.stdout_index
        <+: (run Sys.init (events ++ later)).cap.stdout_buffer.take
              (run Sys.init (events ++ later)).cap.stdout_index ∧
      (run Sys.init events).cap.stderr_buffer.take (run Sys.init events).cap.stderr_index
        <+: (run Sys.init (events ++ later)).cap.stderr_buffer.take
              (run Sys.init (events ++ later)).cap.stderr_index) ∧
    (∀ s : Sys, (stmtReadOut s).cap.stderr_buffer = s.cap.stderr_buffer ∧
      (stmtReadOut s).cap.stderr_index = s.cap.stderr_index) ∧
    (∀ s : Sys, (stmtReadErr s).cap.stdout_buffer = s.cap.stdout_buffer ∧
      (stmtReadErr s).cap.stdout_index = s.cap.stdout_index) := by
  have hinv := capInv_run events Sys.init capInv_init
  refine ⟨hinv.2.2.1, hinv.2.2.2, ?_, ?_, ?_⟩
  · intro later
    have hlater := capInv_run (events ++ later) Sys.init capInv_init
    obtain ⟨ops, hops⟩ := trace_run later (run Sys.init events)
    rw [← run_append] at hops
    rw [hinv.2.2.1, hinv.2.2.2, hlater.2.2.1, hlater.2.2.2, hops, capturedOut_append,
      capturedErr_append]
    exact ⟨List.prefix_append _ _, List.prefix_append _ _⟩
  · intro s
    exact ⟨rfl, rfl⟩
  · intro s
    unfold stmtReadErr
    split
    · exact ⟨rfl, rfl⟩
    · exact ⟨rfl, rfl⟩

/-- C7: `readCommandLineArgs` calls `fatal` if and only if `argc != 2`; the call prints the usage
line and exits with status 1; otherwise `bob_file` is `argv[1]`; and when `argc != 2`, `main`
does nothing but print the usage line: it reads no file and launches no process. -/
theorem readCommandLineArgs_usage (argc : Int) (argv : Nat → String)
    (fileContent : String → List Char) :
    ((∃ f, readCommandLineArgs argc argv = .error f) ↔ argc ≠ 2) ∧
    (∀ f, readCommandLineArgs argc argv = .error f →
      f = { stderr_text := "usage: bob BOBFILE\n", exit_status := 1 } ∧ f.exit_status ≠ 0) ∧
    (∀ args, readCommandLineArgs argc argv = .ok args → args.bob_file = argv 1) ∧
    (argc = 2 → readCommandLineArgs argc argv = .ok { bob_file := argv 1 }) ∧
    (argc ≠ 2 → main argc argv fileContent =
      { effects := [.writeStderr "usage: bob BOBFILE\n"], exit_status := 1 }) := by
  have hfatal : fatal USAGE = { stderr_text := "usage: bob BOBFILE\n", exit_status := 1 } := by
    decide
  by_cases h2 : argc = 2
  · subst h2
    simp [readCommandLineArgs]
  · have hcases : argc < 2 ∨ argc > 2 := by omega
    have herr : readCommandLineArgs argc argv = .error (fatal USAGE) := by
      unfold readCommandLineArgs
      rcases hcases with h | h
      · simp [h]
      · have hn : ¬ argc < 2 := by omega
        simp [h, hn]
    refine ⟨?_, ?_, ?_, ?_, ?_⟩
    · simp [herr, h2]
    · intro f hf
      rw [herr] at hf
      injection hf with hf
      subst hf
      rw [hfatal]
      exact ⟨rfl, by decide⟩
    · intro args hargs
      rw [herr] at hargs
      cases hargs
    · intro h
      exact absurd h h2
    · intro _
      simp only [main, herr, hfatal]

/-- C8, amended: an iteration of the capture loop always attempts the read on the stdout pipe;
it attempts the read on the stderr pipe exactly when the stdout read returned no data
(`ret <= 0`), because `&&` does not evaluate the second `read_into_buffer` once `pipe_empty` is
false; the exit poll follows when `ended` is not yet set. -/
theorem loopBody_read_attempts (wait : Kernel → Int) (s : Sys) :
    (loopBody wait s).trace =
      s.trace ++ [.readOut (sys_read s.kernel.out_pipe).1]
        ++ (if 0 < (sys_read s.kernel.out_pipe).1.ret then []
            else [.readErr (sys_read s.kernel.err_pipe).1])
        ++ (if s.cap.ended then [] else [.poll (wait (loopBody wait s).kernel)]) := by
  by_cases hpos : 0 < (sys_read s.kernel.out_pipe).1.ret
  · by_cases he : s.cap.ended = true
    · simp [loopBody, stmtPoll, stmtReadErr, stmtReadOut, read_into_buffer_fst, hpos, he]
    · simp [loopBody, stmtPoll, stmtReadErr, stmtReadOut, read_into_buffer_fst, hpos, he]
  · by_cases he : s.cap.ended = true
    · simp [loopBody, stmtPoll, stmtReadErr, stmtReadOut, read_into_buffer_fst, hpos, he]
    · simp [loopBody, stmtPoll, stmtReadErr, stmtReadOut, read_into_buffer_fst, hpos, he]

/-- C10: both vectors start with `size() == index + 64`; a call of `read_into_buffer` on a
vector with `size() == index + 64` whose `read` returns at most 64 keeps the bytes stored by
`read` inside the vector and re-establishes `size() == index + 64`, growing size and index by
`ret` when `ret > 0` and changing neither when `ret <= 0`; hence the equation holds for both
streams at every point of every execution of the capture loop. -/
theorem read_into_buffer_capacity :
    (Capture.init.stdout_buffer.length = Capture.init.stdout_index + 64 ∧
      Capture.init.stderr_buffer.length = Capture.init.stderr_index + 64) ∧
    (∀ (r : ReadOutcome) (buffer : List Byte) (index : Nat),
      buffer.length = index + 64 → r.ret ≤ 64 →
        index + r.stored.length ≤ buffer.length ∧
        (read_into_buffer r buffer index).2.1.length
          = (read_into_buffer r buffer index).2.2 + 64 ∧
        (0 < r.ret →
          (read_into_buffer r buffer index).1 = true ∧
          ((read_into_buffer r buffer index).2.1.length : Int) = buffer.length + r.ret ∧
          ((read_into_buffer r buffer index).2.2 : Int) = index + r.ret) ∧
        (r.ret ≤ 0 →
          (read_into_buffer r buffer index).1 = false ∧
          (read_into_buffer r buffer index).2.1 = buffer ∧
          (read_into_buffer r buffer index).2.2 = index)) ∧
    (∀ events : List Event,
      (run Sys.init events).cap.stdout_buffer.length
        = (run Sys.init events).cap.stdout_index + 64 ∧
      (run Sys.init events).cap.stderr_buffer.length
        = (run Sys.init events).cap.stderr_index + 64) := by
  refine ⟨by decide, ?_, ?_⟩
  · intro r buffer index hcap hret
    have hlen : r.stored.length ≤ 64 := by
      have := ret_toNat r
      omega
    refine ⟨by omega, (read_into_buffer_captured r buffer index hcap hlen).1, ?_, ?_⟩
    · intro hpos
      rw [read_into_buffer_of_pos r buffer index hpos]
      have hl := storeAt_length buffer index r.stored (by omega)
      have hn := ret_toNat r
      refine ⟨rfl, ?_, ?_⟩
      · simp only [List.length_append, List.length_replicate, hl]
        push_cast
        omega
      · push_cast
        omega
    · intro hle
      rw [read_into_buffer_of_nonpos r buffer index hle]
      exact ⟨rfl, rfl, rfl⟩
  · intro events
    have hinv := capInv_run events Sys.init capInv_init
    exact ⟨hinv.1, hinv.2.1⟩

/-- The part of C3 that the code keeps: for a source that starts with a non-whitespace
character, `parseCommand` returns a Command whose arguments before the null sentinel are the
maximal non-whitespace runs of the source, in order, the program name being the first of them
and `arguments[0]`. -/
theorem parseCommand_runs (source : List Char) (c0 : Char) (rest : List Char)
    (hsrc : source = c0 :: rest) (h0 : isDelimiter c0 = false) (hnul : '\x00' ∉ source) :
    ∃ c : Command, parseCommand source = some c ∧
      c.args = (maximalRuns source).map some ∧
      (maximalRuns source).head? = some c.program_name ∧
      c.args.head? = some (some c.program_name) := by
  have hne : source ≠ [] := by
    rw [hsrc]
    exact List.cons_ne_nil _ _
  cases hs : strpbrk source with
  | none =>
    have hg : get_next_token { iter := source, ended := false }
        = (source, { iter := source, ended := true }) := by
      simp [get_next_token, hs]
    have hruns := maximalRuns_of_none source hs
    rw [if_neg hne] at hruns
    refine ⟨{ program_name := source, arguments := [some source, none], argument_count := 2 },
      ?_, ?_, ?_, ?_⟩
    · simp [parseCommand, hg, tokenLoop_ended]
    · rw [hruns]
      rfl
    · rw [hruns]
      rfl
    · rfl
  | some off =>
    have hg : get_next_token { iter := source, ended := false }
        = (source.take off, { iter := source.drop (off + 1), ended := false }) := by
      simp [get_next_token, hs]
    have hoff := strpbrk_lt source off hs
    have htok : source.take off ≠ [] := by
      have h := get_next_token_of_nondelimiter { iter := source, ended := false } c0 rest hsrc h0
      rw [hg] at h
      exact h
    have hloop := tokenLoop_runs (source.length + 1)
      { iter := source.drop (off + 1), ended := false } [source.take off] rfl
      (by simp only [List.length_drop]; omega) (fun hm => hnul (List.mem_of_mem_drop hm))
    have hruns := maximalRuns_of_some source off hs
    rw [if_neg htok] at hruns
    refine ⟨{ program_name := source.take off,
              arguments := List.map some
                ([source.take off] ++ maximalRuns (source.drop (off + 1))) ++ [none],
              argument_count := (List.map some
                ([source.take off] ++ maximalRuns (source.drop (off + 1))) ++ [none]).length },
      ?_, ?_, ?_, ?_⟩
    · simp only [parseCommand, hg, hloop]
    · rw [hruns]
      simp only [Command.args]
      rw [List.dropLast_concat]
    · rw [hruns]
      rfl
    · simp only [Command.args]
      rw [List.dropLast_concat]
      rfl

/-- The theorem `parseCommand_runs` at the spec's example `echo hello world`. -/
theorem parseCommand_runs_witness :
    ∃ c : Command, parseCommand "echo hello world".toList = some c ∧
      c.args = (maximalRuns "echo hello world".toList).map some ∧
      (maximalRuns "echo hello world".toList).head? = some c.program_name ∧
      c.args.head? = some (some c.program_name) :=
  parseCommand_runs "echo hello world".toList 'e' "cho hello world".toList (by decide)
    (by decide) (by decide)

/-- C5, amended: `parseCommand` returns a Command for every source; `arguments` is the program
name, then tokens none of which is empty, then the null sentinel; the program name
(`arguments[0]`) is not empty when the source starts with a non-whitespace character; and when
the source is empty or holds whitespace only, the program name is the empty string and is the
only argument. -/
theorem parseCommand_arguments_nonempty (source : List Char) :
    ∃ (c : Command) (extra : List (List Char)), parseCommand source = some c ∧
      c.arguments = (some c.program_name :: extra.map some) ++ [none] ∧
      c.args = some c.program_name :: extra.map some ∧
      c.argument_count = extra.length + 2 ∧
      (∀ t ∈ extra, t ≠ []) ∧
      (∀ ch rest, source = ch :: rest → isDelimiter ch = false → c.program_name ≠ []) ∧
      ((∀ ch ∈ source, isDelimiter ch = true) → c.program_name = [] ∧ c.args = [some []]) := by
  have hprog : (get_next_token { iter := source, ended := false }).2.ended = true ∨
      (get_next_token { iter := source, ended := false }).2.iter.length < source.length + 1 := by
    rcases get_next_token_progress { iter := source, ended := false } with h | h
    · exact Or.inl h
    · right
      simp only at h
      omega
  obtain ⟨extra, h1, h2, h3⟩ := tokenLoop_spec (source.length + 1)
    (get_next_token { iter := source, ended := false }).2
    [(get_next_token { iter := source, ended := false }).1] hprog
  refine ⟨{ program_name := (get_next_token { iter := source, ended := false }).1,
             arguments := List.map some
               ([(get_next_token { iter := source, ended := false }).1] ++ extra) ++ [none],
             argument_count := (List.map some
               ([(get_next_token { iter := source, ended := false }).1] ++ extra) ++ [none]).length },
    extra, by simp only [parseCommand, h1], ?_, ?_, ?_, h2, ?_, ?_⟩
  · simp
  · simp only [Command.args, List.map_append, List.map_cons, List.map_nil, List.singleton_append]
    rw [List.dropLast_concat]
  · simp
  · intro ch rest hsrc hch
    exact get_next_token_of_nondelimiter { iter := source, ended := false } ch rest hsrc hch
  · intro hall
    have hnil := get_next_token_of_delimiters { iter := source, ended := false } hall
    have hextra : extra = [] :=
      h3 (fun c hc => hall c (get_next_token_iter_subset { iter := source, ended := false } c hc))
    refine ⟨hnil, ?_⟩
    simp [Command.args, hnil, hextra]

/-- The part of C9 that the code keeps: from a state at the start of an iteration (the loop
condition holds) with `ended` set and both vectors 64 bytes longer than their index, if nothing
more is written to the pipes, the loop makes exactly `ceil(a/64) + ceil(b/64) + 1` further
iterations, `a` and `b` being the numbers of bytes in the stdout and the stderr pipe, and then
stops with both pipes empty and their bytes appended, in order, to the bytes captured before. -/
theorem whileLoop_drains_after_exit (wait : Kernel → Int) (s : Sys) (fuel : Nat)
    (hended : s.cap.ended = true) (hcond : loopCond s.cap = true)
    (hout : s.cap.stdout_buffer.length = s.cap.stdout_index + 64)
    (herr : s.cap.stderr_buffer.length = s.cap.stderr_index + 64)
    (hfuel : ceil64 s.kernel.out_pipe.length + ceil64 s.kernel.err_pipe.length + 1 ≤ fuel) :
    ∃ t, whileLoop wait fuel s
        = some (t, ceil64 s.kernel.out_pipe.length + ceil64 s.kernel.err_pipe.length + 1) ∧
      t.kernel.out_pipe = [] ∧ t.kernel.err_pipe = [] ∧ loopCond t.cap = false ∧
      t.cap.stdout_buffer.take t.cap.stdout_index
        = s.cap.stdout_buffer.take s.cap.stdout_index ++ s.kernel.out_pipe ∧
      t.cap.stderr_buffer.take t.cap.stderr_index
        = s.cap.stderr_buffer.take s.cap.stderr_index ++ s.kernel.err_pipe :=
  whileLoop_drains_aux wait _ s fuel rfl hended hcond hout herr hfuel

/-- The theorem `whileLoop_drains_after_exit` at `drainExample`: two reads empty the stdout
pipe, one the stderr pipe, and a fourth iteration finds both empty. -/
theorem whileLoop_drains_after_exit_witness :
    ceil64 drainExample.kernel.out_pipe.length + ceil64 drainExample.kernel.err_pipe.length + 1
      = 4 ∧
    ∃ t, whileLoop sys_waitpid 4 drainExample
        = some (t, ceil64 drainExample.kernel.out_pipe.length
            + ceil64 drainExample.kernel.err_pipe.length + 1) ∧
      t.kernel.out_pipe = [] ∧ t.kernel.err_pipe = [] ∧ loopCond t.cap = false ∧
      t.cap.stdout_buffer.take t.cap.stdout_index
        = drainExample.cap.stdout_buffer.take drainExample.cap.stdout_index
          ++ drainExample.kernel.out_pipe ∧
      t.cap.stderr_buffer.take t.cap.stderr_index
        = drainExample.cap.stderr_buffer.take drainExample.cap.stderr_index
          ++ drainExample.kernel.err_pipe :=
  ⟨by decide, whileLoop_drains_after_exit sys_waitpid drainExample 4 (by decide) (by decide)
    (by decide) (by decide) (by decide)⟩

/-- C10 at the first read of a run: three bytes arrive in the fresh 64-byte vector. -/
theorem read_into_buffer_capacity_witness :
    (read_into_buffer (.bytes [104, 105, 10]) (List.replicate 64 0) 0).2.1.length
      = (read_into_buffer (.bytes [104, 105, 10]) (List.replicate 64 0) 0).2.2 + 64 ∧
    (read_into_buffer (.bytes [104, 105, 10]) (List.replicate 64 0) 0).2.2 = 3 :=
  ⟨(read_into_buffer_capacity.2.1 (.bytes [104, 105, 10]) (List.replicate 64 0) 0
      (by decide) (by decide)).2.1, by decide⟩

/-! ## Evaluations on concrete inputs -/

/-- The spec's first tokenizer example: `echo hello world`. -/
theorem parseCommand_echo_hello_world :
    parseCommand "echo hello world".toList =
      some { program_name := "echo".toList
             arguments := [some "echo".toList, some "hello".toList, some "world".toList, none]
             argument_count := 4 } := by
  decide

/-- The spec's second tokenizer example: repeated and mixed whitespace. -/
theorem parseCommand_repeated_whitespace :
    (parseCommand "echo   a\tb\n".toList).map Command.args =
      some [some "echo".toList, some "a".toList, some "b".toList] := by
  decide

/-- C3, evaluated at a source with a leading blank: the first call of `get_next_token` returns
the empty token in front of the blank, and `parseCommand` takes it as program name and as
`arguments[0]` without the emptiness test that the loop applies to the later tokens; the only
maximal non-whitespace run, `echo`, ends up as `arguments[1]`. -/
theorem parseCommand_leading_blank :
    parseCommand " echo".toList =
      some { program_name := []
             arguments := [some [], some "echo".toList, none]
             argument_count := 3 } := by
  decide

/-- C5 as stated fails on the empty source: `arguments[0]` is the empty string. -/
theorem parseCommand_empty_source_has_empty_argument :
    ∃ c, parseCommand [] = some c ∧ c.program_name = [] ∧ c.args = [some []] ∧
      some [] ∈ c.args := by
  decide

/-- C1, evaluated on the race: both reads of the first iteration find the pipes empty, the
child then writes two bytes to its standard output and exits, and the `waitpid` of the same
iteration reports the exit. The loop condition sees `ended && pipe_empty` and the loop stops:
the log holds no read after the poll, and the two bytes are still in the pipe. -/
theorem capture_loop_race_loses_output :
    (run Sys.init [.parent, .parent, .childWriteOut [104, 105], .childExit, .parent]).pc = .done ∧
    (run Sys.init [.parent, .parent, .childWriteOut [104, 105], .childExit, .parent]).trace
      = [.readOut .fail, .readErr .fail, .poll 1] ∧
    (run Sys.init [.parent, .parent, .childWriteOut [104, 105], .childExit, .parent]).kernel.out_pipe
      = [104, 105] ∧
    (run Sys.init [.parent, .parent, .childWriteOut [104, 105], .childExit, .parent]).cap.stdout_index
      = 0 := by
  decide

/-- C2, evaluated for a child that writes the N = 2 bytes `hi` and exits, all of it before the
parent's first read (no race): the loop ends with `stdout_index = 2`, but the vector
`stdout_buffer`, which `print_buffer` prints whole, has 66 elements, `hi` followed by the 64
zero bytes of read space. -/
theorem capture_printf_hi_buffer_length :
    (run Sys.init [.childWriteOut [104, 105], .childExit, .parent, .parent, .parent, .parent]).pc
      = .done ∧
    (run Sys.init [.childWriteOut [104, 105], .childExit, .parent, .parent, .parent, .parent]).kernel.out_pipe
      = [] ∧
    (run Sys.init [.childWriteOut [104, 105], .childExit, .parent, .parent, .parent, .parent]).cap.stdout_index
      = 2 ∧
    (run Sys.init [.childWriteOut [104, 105], .childExit, .parent, .parent, .parent, .parent]).cap.stdout_buffer
      = 104 :: 105 :: List.replicate 64 0 ∧
    (run Sys.init [.childWriteOut [104, 105], .childExit, .parent, .parent, .parent, .parent]).cap.stdout_buffer.length
      = 66 := by
  decide

set_option maxRecDepth 100000 in
/-- C4, evaluated for a program that cannot be executed, on the schedule: the child's `perror`;
one iteration of the parent; the child's own pass through the capture loop, its report and its
exit; the parent until its loop ends. The parent's loop ends, with the 41 bytes of the `perror`
message captured in the stderr buffer and the 160 bytes of the child's own report captured in
the stdout buffer. -/
theorem capture_exec_failure_fills_buffers :
    (forkRun ForkSys.init ([.child] ++ List.replicate 3 .parent ++ List.replicate 5 .child
        ++ List.replicate 6 .parent)).sys.pc = .done ∧
    (forkRun ForkSys.init ([.child] ++ List.replicate 3 .parent ++ List.replicate 5 .child
        ++ List.replicate 6 .parent)).stage = .exited ∧
    (forkRun ForkSys.init ([.child] ++ List.replicate 3 .parent ++ List.replicate 5 .child
        ++ List.replicate 6 .parent)).sys.cap.stderr_index = 41 ∧
    (forkRun ForkSys.init ([.child] ++ List.replicate 3 .parent ++ List.replicate 5 .child
        ++ List.replicate 6 .parent)).sys.cap.stderr_buffer.take 41 = perrorText ∧
    (forkRun ForkSys.init ([.child] ++ List.replicate 3 .parent ++ List.replicate 5 .child
        ++ List.replicate 6 .parent)).sys.cap.stdout_index = 160 ∧
    (forkRun ForkSys.init ([.child] ++ List.replicate 3 .parent ++ List.replicate 5 .child
        ++ List.replicate 6 .parent)).sys.cap.stdout_buffer.take 160 = report Capture.init := by
  decide

/-- C8 as stated fails when the stdout read returns data: the iteration started with one byte
in the stdout pipe makes the stdout read and the exit poll and no read on the stderr pipe. -/
theorem loopBody_skips_stderr_read :
    (loopBody sys_waitpid
      { Sys.init with kernel := { out_pipe := [7], err_pipe := [8], child_exited := false } }).trace
      = [.readOut (.bytes [7]), .poll 0] ∧
    (loopBody sys_waitpid
      { Sys.init with kernel := { out_pipe := [7], err_pipe := [8], child_exited := false } }).kernel.err_pipe
      = [8] := by
  decide

/-- C9, evaluated at the loop state that the race of C1 reaches from the initial state (both
reads of the first iteration find the pipes empty, the child writes one byte to its standard
output and exits, the poll of the same iteration sets `ended`): `ended` is true and a = 1 byte
is in the stdout pipe, b = 0 in the stderr pipe, so the claim promises termination within
`ceil(1/64) + ceil(0/64) + 1 = 2` iterations with both pipes drained; the loop condition is
false on the stale `pipe_empty`, the loop makes no further iteration, and the byte stays in the
pipe, uncaptured. -/
theorem whileLoop_stops_undrained :
    (run Sys.init [.parent, .parent, .childWriteOut [7], .childExit, .parent]).cap.ended = true ∧
    (run Sys.init [.parent, .parent, .childWriteOut [7], .childExit, .parent]).pc = .done ∧
    (run Sys.init [.parent, .parent, .childWriteOut [7], .childExit, .parent]).kernel.out_pipe
      = [7] ∧
    (run Sys.init [.parent, .parent, .childWriteOut [7], .childExit, .parent]).kernel.err_pipe
      = [] ∧
    ceil64 1 + ceil64 0 + 1 = 2 ∧
    whileLoop sys_waitpid 2
        (run Sys.init [.parent, .parent, .childWriteOut [7], .childExit, .parent])
      = some (run Sys.init [.parent, .parent, .childWriteOut [7], .childExit, .parent], 0) ∧
    (run Sys.init [.parent, .parent, .childWriteOut [7], .childExit, .parent]).cap.stdout_index
      = 0 := by
  decide

end Bob
